import Mathlib

/-!
Verification of the crawl-orchestration and sync layer of the scraper-lambdas
repository, as a shallow embedding in Lean 4.

Python sources embedded here:
- `rapsodia_scrapper.py`: `is_category_complete`, `should_stop_pagination`,
  `find_next_page_url`, `create_next_page_url`, `validate_url`,
  `process_subcategory_with_pagination`, `process_products`,
  `parse_product_page`, `validate_product_data`, the size-extraction loop of
  `extract_product_details`, `clean_size_text`, `normalize_size_letter`,
  `is_element_disabled`.
- `scrapers/supabase_client.py`: `upsert_item`, `upsert_item_images`,
  `link_item_colors`, `mark_missing_items_unavailable`,
  `sync_product_availability`.
- `scrapers/mappers.py`: `normalize_sizes`.

Modelling conventions: Python strings are Lean `String`s, with the Python
`None` value of an optional string field collapsed to `""` when the code only
ever tests it for truthiness; Python `dict.get(k, d)` defaults are modelled
with `Option` fields and `Option.getD`; database tables are lists of row
structures, a SQL `DELETE`/`UPDATE ... WHERE` is a `List.filter`/`List.map`
over the table; Python `set`s that the code only iterates or tests membership
on are lists.  Network and HTML-parsing collaborators are oracle parameters
(a function from a URL to the data the code reads off the fetched page),
so theorems quantify over every possible behaviour of the site.
-/

/-! ## Category Completion Detector (`rapsodia_scrapper.py` 382-406, 1012-1036) -/

/-- Per-category progress counters read by `is_category_complete`:
`consecutive_empty_pages` is `self.consecutive_empty_pages[category]`,
`new_products_found` is `self.new_products_found[category]`,
`products_count` is `len(self.products_by_category[category])`, and
`pages_visited` is `len(self.visited_urls_per_category[category])`. -/
structure CategoryProgress where
  consecutive_empty_pages : Nat
  new_products_found : Nat
  products_count : Nat
  pages_visited : Nat
deriving Repr, DecidableEq

/-- Embedding of `RapsodiaSafeScraper.is_category_complete`
(`rapsodia_scrapper.py` 382-406): the four early-return rules in source
order, else `False`. -/
def is_category_complete (s : CategoryProgress) : Bool :=
  if s.consecutive_empty_pages ≥ 3 then true
  else if s.new_products_found == 0 && s.pages_visited > 10 then true
  else if s.products_count > 200 then true
  else if s.pages_visited > 20 then true
  else false

/-- Embedding of `RapsodiaSafeScraper.should_stop_pagination`
(`rapsodia_scrapper.py` 1012-1036).  `products_count` stands for
`len(self.products_by_category[category_name])`; the remaining three
arguments are the function's own parameters in source order. -/
def should_stop_pagination (products_count : Nat) (products_found : Nat)
    (consecutive_empty : Nat) (total_pages : Nat) : Bool :=
  if consecutive_empty ≥ 3 then true
  else if products_found == 0 && total_pages > 15 then true
  else if products_count > 300 then true
  else if total_pages > 25 then true
  else false

/-- Rule-by-rule characterization of `is_category_complete`, shared by the
theorems about the Completion Detector. -/
lemma is_category_complete_iff (s : CategoryProgress) :
    is_category_complete s = true ↔
      (3 ≤ s.consecutive_empty_pages ∨
       (s.new_products_found = 0 ∧ 10 < s.pages_visited) ∨
       200 < s.products_count ∨
       20 < s.pages_visited) := by
  simp only [is_category_complete]
  split <;> rename_i h1
  · simp [h1]
  · split <;> rename_i h2
    · simp only [Bool.and_eq_true, beq_iff_eq, decide_eq_true_eq] at h2
      simp [h2]
    · split <;> rename_i h3
      · simp [h3]
      · split <;> rename_i h4
        · simp [h4]
        · simp only [Bool.and_eq_true, beq_iff_eq, decide_eq_true_eq,
            not_and, not_lt] at h1 h2 h3 h4
          constructor
          · intro h; exact absurd h (by simp)
          · rintro (h | ⟨ha, hb⟩ | h | h) <;> omega

/-- Rule-by-rule characterization of `should_stop_pagination`, shared by the
theorems about the per-subcategory variant of the detector. -/
lemma should_stop_pagination_iff (pc pf ce tp : Nat) :
    should_stop_pagination pc pf ce tp = true ↔
      (3 ≤ ce ∨ (pf = 0 ∧ 15 < tp) ∨ 300 < pc ∨ 25 < tp) := by
  simp only [should_stop_pagination]
  split <;> rename_i h1
  · simp [h1]
  · split <;> rename_i h2
    · simp only [Bool.and_eq_true, beq_iff_eq, decide_eq_true_eq] at h2
      simp [h2]
    · split <;> rename_i h3
      · simp [h3]
      · split <;> rename_i h4
        · simp [h4]
        · simp only [Bool.and_eq_true, beq_iff_eq, decide_eq_true_eq,
            not_and, not_lt] at h1 h2 h3 h4
          constructor
          · intro h; exact absurd h (by simp)
          · rintro (h | ⟨ha, hb⟩ | h | h) <;> omega

/-- C1: `is_category_complete` returns true iff one of its four rules fires
(3 consecutive empty pages / stalled with more than 10 pages / more than 200
products / more than 20 pages), otherwise false; and the independently
parameterized `should_stop_pagination` applies the same four rules with
thresholds 3 / 15 / 300 / 25. -/
theorem C1_completion_rules :
    (∀ s : CategoryProgress,
      is_category_complete s = true ↔
        (3 ≤ s.consecutive_empty_pages ∨
         (s.new_products_found = 0 ∧ 10 < s.pages_visited) ∨
         200 < s.products_count ∨
         20 < s.pages_visited)) ∧
    (∀ products_count products_found consecutive_empty total_pages : Nat,
      should_stop_pagination products_count products_found consecutive_empty
          total_pages = true ↔
        (3 ≤ consecutive_empty ∨
         (products_found = 0 ∧ 15 < total_pages) ∨
         300 < products_count ∨
         25 < total_pages)) :=
  ⟨is_category_complete_iff, should_stop_pagination_iff⟩

/-- C6: the Completion Detector is monotone in badness: if it fires on a
snapshot `s` and `s'` is equal-or-worse on every tracked field (empty streak
and products and pages at least those of `s`, new-products count at most that
of `s`), then it fires on `s'`. -/
theorem C6_completion_monotone (s s' : CategoryProgress)
    (hempty : s.consecutive_empty_pages ≤ s'.consecutive_empty_pages)
    (hnew : s'.new_products_found ≤ s.new_products_found)
    (hprod : s.products_count ≤ s'.products_count)
    (hpages : s.pages_visited ≤ s'.pages_visited)
    (hs : is_category_complete s = true) :
    is_category_complete s' = true := by
  rw [is_category_complete_iff] at hs ⊢
  rcases hs with h | ⟨h1, h2⟩ | h | h
  · exact Or.inl (le_trans h hempty)
  · exact Or.inr (Or.inl ⟨by omega, by omega⟩)
  · exact Or.inr (Or.inr (Or.inl (by omega)))
  · exact Or.inr (Or.inr (Or.inr (by omega)))

/-- Witness for C6 at a concrete pair of snapshots: `⟨3,0,0,0⟩` is complete
and the strictly worse `⟨4,0,250,21⟩` is therefore also complete. -/
theorem C6_completion_monotone_witness :
    is_category_complete ⟨4, 0, 250, 21⟩ = true :=
  C6_completion_monotone ⟨3, 0, 0, 0⟩ ⟨4, 0, 250, 21⟩
    (by decide) (by decide) (by decide) (by decide) (by decide)

/-! ## Pagination Resolver (`rapsodia_scrapper.py` 577-603) -/

/-- Value of the maximal leading digit run, accumulated left to right; embeds
the `int(...)` conversion of the digits captured by the regex `p=(\d+)`. -/
def readDigitsAux : Nat → List Char → Nat
  | acc, [] => acc
  | acc, c :: rest =>
      if c.isDigit then readDigitsAux (10 * acc + (c.toNat - 48)) rest else acc

/-- Match of the regex `p=(\d+)` anchored at the head of the character list:
succeeds when the list starts with `p=` followed by at least one digit. -/
def parsePageAt : List Char → Option Nat
  | 'p' :: '=' :: c :: rest =>
      if c.isDigit then some (readDigitsAux 0 (c :: rest)) else none
  | _ => none

/-- Embedding of `re.search(r"p=(\d+)", s)`: the leftmost match of the
pattern, scanning start positions left to right. -/
def searchPageParam : List Char → Option Nat
  | [] => none
  | c :: rest =>
      match parsePageAt (c :: rest) with
      | some n => some n
      | none => searchPageParam rest

/-- Embedding of `RapsodiaSafeScraper.find_next_page_url`
(`rapsodia_scrapper.py` 577-603): empty candidate list returns `None`;
otherwise parse the current page index (default 1), return the first
candidate parsing to exactly the next index, else the first candidate
different from the current URL, else `None`. -/
def find_next_page_url (pagination_links : List String) (current_url : String) :
    Option String :=
  if pagination_links.isEmpty then none
  else
    let current_page := (searchPageParam current_url.data).getD 1
    match pagination_links.find? (fun link =>
        searchPageParam link.data == some (current_page + 1)) with
    | some link => some link
    | none => pagination_links.find? (fun link => link != current_url)

/-- Transcription of the spec's words for `findNextPage` (spec §4.2): parse
the current page index `p` from `currentURL` (default 1 if absent); prefer a
candidate whose page index is exactly `p+1`; if none match exactly, fall back
to the first candidate that is not equal to `currentURL`; if no candidates,
return none.  Stated separately from the source embedding so the two can be
compared. -/
def findNextPage_spec (candidates : List String) (currentURL : String) :
    Option String :=
  let p := (searchPageParam currentURL.data).getD 1
  match candidates.find? (fun l => searchPageParam l.data == some (p + 1)) with
  | some l => some l
  | none => candidates.find? (fun l => l != currentURL)

/-- Parse result of a URL can never equal `some` of its own default-1 parse
plus one, so the exact-next-page branch cannot return the current URL. -/
lemma page_param_ne_succ (q : Option Nat) :
    (q == some (q.getD 1 + 1)) = false := by
  cases q <;> simp

/-- C5: `find_next_page_url` coincides with the spec's description of
`findNextPage` on all inputs, never returns the current URL itself, and on
the spec's Scenario A (current page `p=2`, candidates `p=1` and `p=3`)
returns the `p=3` candidate. -/
theorem C5_find_next_page_url :
    (∀ (links : List String) (cur : String),
        find_next_page_url links cur ≠ some cur) ∧
    (∀ (links : List String) (cur : String),
        find_next_page_url links cur = findNextPage_spec links cur) ∧
    find_next_page_url
        ["https://www.rapsodia.com.ar/woman/cat?p=1",
         "https://www.rapsodia.com.ar/woman/cat?p=3"]
        "https://www.rapsodia.com.ar/woman/cat?p=2" =
      some "https://www.rapsodia.com.ar/woman/cat?p=3" := by
  refine ⟨?_, ?_, by decide⟩
  · intro links cur
    unfold find_next_page_url
    split
    · simp
    · rcases hfind : links.find? (fun link =>
          searchPageParam link.data ==
            some ((searchPageParam cur.data).getD 1 + 1)) with _ | l
      · simp only [hfind]
        intro hcontra
        rcases hfind2 : links.find? (fun link => link != cur) with _ | l'
        · simp [hfind2] at hcontra
        · have hpred := List.find?_some hfind2
          simp only [bne_iff_ne, ne_eq] at hpred
          simp only [hfind2, Option.some.injEq] at hcontra
          exact hpred (hcontra ▸ rfl)
      · simp only [hfind, ne_eq, Option.some.injEq]
        intro hcontra
        have hpred := List.find?_some hfind
        rw [hcontra] at hpred
        rw [page_param_ne_succ] at hpred
        exact Bool.false_ne_true hpred
  · intro links cur
    cases links with
    | nil => simp [find_next_page_url, findNextPage_spec]
    | cons h t => simp [find_next_page_url, findNextPage_spec]

/-! ## Per-subcategory pagination loop (`rapsodia_scrapper.py` 1038-1134) -/

/-- Embedding of `RapsodiaSafeScraper.validate_url`
(`rapsodia_scrapper.py` 206-221): non-empty, an accepted protocol, and the
substring `rapsodia.com.ar` present. -/
def validate_url (url : String) : Bool :=
  if url = "" then false
  else if ¬ (url.startsWith "http://" || url.startsWith "https://" ||
             url.startsWith "file://" || url.startsWith "raw:") then false
  else if ¬ (decide (List.IsInfix "rapsodia.com.ar".data url.data)) then false
  else true

/-- Embedding of `RapsodiaSafeScraper.create_next_page_url`
(`rapsodia_scrapper.py` 223-237): empty string on an invalid current URL,
otherwise append `p=N` with `&` or `?` depending on whether the URL already
has query parameters. -/
def create_next_page_url (current_url : String) (page_number : Nat) : String :=
  if ¬ validate_url current_url then ""
  else if current_url.contains '?' then
    current_url ++ "&" ++ "p=" ++ toString page_number
  else
    current_url ++ "?" ++ "p=" ++ toString page_number

/-- Result of `parse_subcategory_page` as read by the pagination loop: the
product URLs found on the page, and the resolved next page — `none` for
Python `None`, or a URL string; the Python code reuses the literal string
`"javascript_pagination_detected"` as an in-band sentinel. -/
structure SubcatData where
  products : List String
  next_page : Option String

/-- Observations one loop iteration makes of shared mutable state and of the
network: the `CategoryProgress` snapshot consulted by `is_category_complete`,
the parsed page data, the answer of `validate_page_has_products` on the
candidate next page, and `len(self.products_by_category[parent_category])`
consulted by `should_stop_pagination`.  These are supplied by an oracle
because they depend on the fetched site and on state mutated outside the
loop; the loop's own control flow below is translated from the source. -/
structure PageObs where
  progress : CategoryProgress
  data : SubcatData
  next_page_has_products : Bool
  category_products_count : Nat

/-- Final counters of one run of the pagination loop. -/
structure PaginationResult where
  page_count : Nat
  total_products_found : Nat

/-- Truthiness of the `next_page` value, as tested by `elif next_page:`. -/
def nextPageTruthy : Option String → Bool
  | none => false
  | some s => s ≠ ""

/-- Embedding of the `while current_url and page_count < max_pages` loop of
`process_subcategory_with_pagination` (`rapsodia_scrapper.py` 1048-1130).
The recursion is on `fuel`; the wrapper starts it at `max_pages`, so that
`fuel = max_pages - page_count` throughout and `fuel = 0` is exactly the
loop guard `page_count < max_pages` failing.  `page_count` itself is still
threaded because the body compares it against `max_pages` in the
JavaScript-pagination branch.  The `javascript_pagination_detected` flag of
the source only controls log output and is omitted. -/
def subcatLoop (env : String → Nat → PageObs) (max_pages : Nat) :
    Nat → String → Nat → Nat → Nat → PaginationResult
  | 0, _, page_count, _, total => ⟨page_count, total⟩
  | fuel + 1, current_url, page_count, consecutive_empty, total =>
    if current_url = "" then ⟨page_count, total⟩
    else
      let pc := page_count + 1
      let obs := env current_url pc
      if is_category_complete obs.progress then ⟨pc, total⟩
      else
        let products_found := obs.data.products.length
        let total' := total + products_found
        let ce := if products_found = 0 then consecutive_empty + 1 else 0
        if products_found = 0 ∧ 2 ≤ ce ∧ nextPageTruthy obs.data.next_page ∧
            obs.next_page_has_products = false then
          ⟨pc, total'⟩
        else if should_stop_pagination obs.category_products_count
            products_found ce pc then
          ⟨pc, total'⟩
        else
          match obs.data.next_page with
          | none => ⟨pc, total'⟩
          | some np =>
            if np = "javascript_pagination_detected" then
              if pc < max_pages then
                let nu := create_next_page_url current_url (pc + 1)
                if nu = "" then ⟨pc, total'⟩
                else subcatLoop env max_pages fuel nu pc ce total'
              else ⟨pc, total'⟩
            else if np = "" then ⟨pc, total'⟩
            else subcatLoop env max_pages fuel np pc ce total'

/-- Embedding of `RapsodiaSafeScraper.process_subcategory_with_pagination`
(`rapsodia_scrapper.py` 1038-1134): run the loop from the seed URL with
`page_count = 0`, `consecutive_empty_pages = 0`, `total_products_found = 0`. -/
def process_subcategory_with_pagination (env : String → Nat → PageObs)
    (url : String) (max_pages : Nat) : PaginationResult :=
  subcatLoop env max_pages max_pages url 0 0 0

/-- Default of the `max_pages` parameter of
`RapsodiaSafeScraper.crawl_with_pagination` (`rapsodia_scrapper.py` 917),
which is the ceiling it passes to `process_subcategory_with_pagination`. -/
def crawl_with_pagination_default_max_pages : Nat := 5

/-- Bound on the loop: the final page count never exceeds the starting page
count plus the available fuel, for every oracle — in particular for oracles
whose next-page links form a cycle. -/
lemma subcatLoop_page_count_le (env : String → Nat → PageObs)
    (max_pages : Nat) :
    ∀ (fuel : Nat) (url : String) (pc ce tot : Nat),
      (subcatLoop env max_pages fuel url pc ce tot).page_count ≤ pc + fuel := by
  intro fuel
  induction fuel with
  | zero => intro url pc ce tot; simp [subcatLoop]
  | succ n ih =>
    intro url pc ce tot
    simp only [subcatLoop]
    repeat' split
    all_goals
      first
        | exact le_trans (ih _ _ _ _) (by omega)
        | (simp; try omega)

/-- C7: for every oracle (hence every link graph, cyclic ones included),
every seed URL and every `max_pages`, the per-subcategory pagination loop
executes at most `max_pages` page iterations — the final `page_count` is at
most `max_pages` — and the embedding is a total function, so the loop always
terminates; the page ceiling passed by `crawl_with_pagination` defaults
to 5. -/
theorem C7_pagination_terminates :
    (∀ (env : String → Nat → PageObs) (url : String) (max_pages : Nat),
        (process_subcategory_with_pagination env url max_pages).page_count ≤
          max_pages) ∧
    crawl_with_pagination_default_max_pages = 5 := by
  refine ⟨fun env url max_pages => ?_, rfl⟩
  have h := subcatLoop_page_count_le env max_pages max_pages url 0 0 0
  simpa [process_subcategory_with_pagination] using h

/-! ## Idempotent Sync Layer (`scrapers/supabase_client.py`) -/

/-- Row of the `items` table, with the columns the embedded functions read or
write.  `price` is stored opaquely (the sync layer never computes with it);
`updated_at`/`NOW()` is an abstract tick passed in by the caller. -/
structure ItemRow where
  item_id : Nat
  brand_id : Nat
  name : String
  description : Option String
  price : Int
  main_category_id : Option Nat
  subcategory_id : Option Nat
  sizes : List String
  sizes_available : List String
  available : Bool
  updated_at : Nat
deriving Repr, DecidableEq

/-- Contents of the `item_data` dict accepted by `upsert_item`; keys the code
reads with `dict.get` and a default are `Option` fields. -/
structure ItemData where
  name : String
  description : Option String
  price : Int
  brand_id : Nat
  category_id : Option Nat
  subcategory_id : Option Nat
  sizes : List String
  sizes_available : Option (List String)
  available : Option Bool
deriving Repr, DecidableEq

/-- Outcome of one `upsert_item` call: the new table, the returned
`item_id`, and whether the two change-detection log lines fired
(`"Item ... is now unavailable"` and `"Item ... sizes changed"`). -/
structure UpsertResult where
  table : List ItemRow
  item_id : Nat
  logged_unavailable : Bool
  logged_sizes_change : Bool
deriving Repr, DecidableEq

/-- Embedding of `SupabaseClient.upsert_item`
(`scrapers/supabase_client.py` 175-276).  `new_id` stands for the
`RETURNING item_id` of the `INSERT` branch; `now` for `NOW()`.  The lookup
is the `SELECT ... WHERE name = %s AND brand_id = %s` with `fetchone()`
(first matching row); the update branch is the `UPDATE ... WHERE item_id`
over the table; change detection compares `old_available and not new` and
`old_sizes_available != new` (Python list inequality). -/
def upsert_item (table : List ItemRow) (item_data : ItemData) (new_id : Nat)
    (now : Nat) : UpsertResult :=
  match table.find? (fun r =>
      r.name == item_data.name && r.brand_id == item_data.brand_id) with
  | some existing =>
      { table := table.map (fun r =>
          if r.item_id == existing.item_id then
            { r with
                description := item_data.description,
                price := item_data.price,
                sizes := item_data.sizes,
                sizes_available := item_data.sizes_available.getD [],
                available := item_data.available.getD true,
                updated_at := now }
          else r),
        item_id := existing.item_id,
        logged_unavailable :=
          existing.available && !(item_data.available.getD true),
        logged_sizes_change :=
          existing.sizes_available != item_data.sizes_available.getD [] }
  | none =>
      { table := table ++ [{
          item_id := new_id,
          brand_id := item_data.brand_id,
          name := item_data.name,
          description := item_data.description,
          price := item_data.price,
          main_category_id := item_data.category_id,
          subcategory_id := item_data.subcategory_id,
          sizes := item_data.sizes,
          sizes_available := item_data.sizes_available.getD [],
          available := item_data.available.getD true,
          updated_at := now }],
        item_id := new_id,
        logged_unavailable := false,
        logged_sizes_change := false }

/-- Row of the `item_images` table. -/
structure ImageRow where
  item_id : Nat
  url : String
  is_primary : Bool
  color_id : Option Nat
deriving Repr, DecidableEq

/-- Embedding of `SupabaseClient.upsert_item_images`
(`scrapers/supabase_client.py` 278-319): early return on an empty URL list;
otherwise `DELETE FROM item_images WHERE item_id = %s` then insert the
enumerated URLs, the first one marked primary. -/
def upsert_item_images (table : List ImageRow) (item_id : Nat)
    (image_urls : List String) (color_id : Option Nat) : List ImageRow :=
  if image_urls.isEmpty then table
  else
    (table.filter (fun r => r.item_id != item_id)) ++
      (image_urls.enum.map (fun p =>
        { item_id := item_id, url := p.2, is_primary := p.1 == 0,
          color_id := color_id }))

/-- Row of the `item_x_item_colors` link table. -/
structure ColorLink where
  item_id : Nat
  color_id : Nat
deriving Repr, DecidableEq

/-- Embedding of `SupabaseClient.link_item_colors`
(`scrapers/supabase_client.py` 321-353): early return on an empty color
list; otherwise delete the item's existing links and insert the new pairs,
`ON CONFLICT (item_id, color_id) DO NOTHING` modelled by skipping a pair
already present in the table being built. -/
def link_item_colors (table : List ColorLink) (item_id : Nat)
    (color_ids : List Nat) : List ColorLink :=
  if color_ids.isEmpty then table
  else
    color_ids.foldl (fun acc cid =>
        if acc.any (fun r => r.item_id == item_id && r.color_id == cid) then acc
        else acc ++ [{ item_id := item_id, color_id := cid }])
      (table.filter (fun r => r.item_id != item_id))

/-- Embedding of `SupabaseClient.mark_missing_items_unavailable`
(`scrapers/supabase_client.py` 355-399).  The per-item loop body is `pass`
in the source, so the fold accumulates nothing; the conditional `UPDATE`
runs only on a non-empty accumulator.  Returns the table and the
accumulated id list. -/
def mark_missing_items_unavailable (table : List ItemRow) (brand_id : Nat)
    (found_skus : List String) (run_date : Nat) : List ItemRow × List Nat :=
  let all_items := table.filter (fun r => r.brand_id == brand_id && r.available)
  let items_to_mark_unavailable : List Nat :=
    all_items.foldl (fun acc _ => acc) []
  if items_to_mark_unavailable.isEmpty then (table, items_to_mark_unavailable)
  else
    (table.map (fun r =>
        if items_to_mark_unavailable.contains r.item_id then
          { r with available := false, updated_at := run_date }
        else r),
     items_to_mark_unavailable)

/-- Left fold with a step that returns its accumulator unchanged computes
the initial accumulator. -/
lemma foldl_const_acc {α β : Type} (l : List α) (init : β) :
    l.foldl (fun acc _ => acc) init = init := by
  induction l with
  | nil => rfl
  | cons x xs ih => simp only [List.foldl_cons]; exact ih

/-- C10: `mark_missing_items_unavailable` performs no mutation: for every
table, brand, SKU set and run date its loop accumulates no item, so it
returns the table unchanged together with an empty to-mark list, and the
`UPDATE` branch is unreachable. -/
theorem C10_mark_missing_noop (table : List ItemRow) (brand_id : Nat)
    (found_skus : List String) (run_date : Nat) :
    mark_missing_items_unavailable table brand_id found_skus run_date =
      (table, []) := by
  unfold mark_missing_items_unavailable
  simp [foldl_const_acc]

/-- Monotonicity of the color-insert fold: rows present in the accumulator
survive the whole fold. -/
lemma linkFold_mem_mono (item_id : Nat) :
    ∀ (l : List Nat) (acc : List ColorLink) (r : ColorLink), r ∈ acc →
      r ∈ l.foldl (fun acc cid =>
          if acc.any (fun x => x.item_id == item_id && x.color_id == cid) then
            acc
          else acc ++ [{ item_id := item_id, color_id := cid }]) acc := by
  intro l
  induction l with
  | nil => intro acc r hr; simpa using hr
  | cons c cs ih =>
      intro acc r hr
      simp only [List.foldl_cons]
      split
      · exact ih acc r hr
      · exact ih _ r (List.mem_append_left _ hr)

/-- Membership after the color-insert fold: a row is in the result iff it was
in the accumulator or it is one of the pairs being inserted. -/
lemma linkFold_mem_iff (item_id : Nat) :
    ∀ (l : List Nat) (acc : List ColorLink) (r : ColorLink),
      r ∈ l.foldl (fun acc cid =>
          if acc.any (fun x => x.item_id == item_id && x.color_id == cid) then
            acc
          else acc ++ [{ item_id := item_id, color_id := cid }]) acc ↔
        (r ∈ acc ∨ ∃ c ∈ l, r = { item_id := item_id, color_id := c }) := by
  intro l
  induction l with
  | nil => intro acc r; simp
  | cons c cs ih =>
      intro acc r
      simp only [List.foldl_cons]
      split <;> rename_i hany
      · rw [ih]
        simp only [List.any_eq_true, Bool.and_eq_true, beq_iff_eq] at hany
        obtain ⟨x, hx, hxi, hxc⟩ := hany
        have hx' : x = { item_id := item_id, color_id := c } := by
          cases x; simp_all
        constructor
        · rintro (h | ⟨c', hc', he⟩)
          · exact Or.inl h
          · exact Or.inr ⟨c', List.mem_cons_of_mem _ hc', he⟩
        · rintro (h | ⟨c', hc', he⟩)
          · exact Or.inl h
          · rcases List.mem_cons.mp hc' with rfl | hc''
            · exact Or.inl (he ▸ hx' ▸ hx)
            · exact Or.inr ⟨c', hc'', he⟩
      · rw [ih]
        constructor
        · rintro (h | ⟨c', hc', he⟩)
          · rcases List.mem_append.mp h with h' | h'
            · exact Or.inl h'
            · exact Or.inr ⟨c, List.mem_cons_self _ _, by simpa using h'⟩
          · exact Or.inr ⟨c', List.mem_cons_of_mem _ hc', he⟩
        · rintro (h | ⟨c', hc', he⟩)
          · exact Or.inl (List.mem_append_left _ h)
          · rcases List.mem_cons.mp hc' with rfl | hc''
            · exact Or.inl (List.mem_append_right _ (by simp [he]))
            · exact Or.inr ⟨c', hc'', he⟩

/-- C2 counterexample: syncing an item that already has a stored image (or a
stored color link) with an extraction carrying zero image URLs (zero colors)
leaves the stored rows untouched — the functions return before deleting
anything — contradicting the claim that such a sync erases them. -/
theorem C2_counterexample :
    upsert_item_images
        [{ item_id := 1, url := "https://img/a.jpg", is_primary := true,
           color_id := none }] 1 [] none =
      [{ item_id := 1, url := "https://img/a.jpg", is_primary := true,
         color_id := none }] ∧
    (upsert_item_images
        [{ item_id := 1, url := "https://img/a.jpg", is_primary := true,
           color_id := none }] 1 [] none).filter
        (fun r => r.item_id == 1) ≠ [] ∧
    link_item_colors [{ item_id := 1, color_id := 2 }] 1 [] =
      [{ item_id := 1, color_id := 2 }] := by
  refine ⟨rfl, ?_, rfl⟩
  decide

/-- C2 amended: dependent entities are replaced wholesale (delete current
rows, insert the extraction's rows) whenever the extraction's list is
non-empty; an extraction carrying an empty list returns early and leaves the
previously stored rows unchanged. -/
theorem C2_wholesale_replacement :
    (∀ (table : List ImageRow) (item_id : Nat) (image_urls : List String)
        (color_id : Option Nat),
      (image_urls = [] →
        upsert_item_images table item_id image_urls color_id = table) ∧
      (image_urls ≠ [] →
        (upsert_item_images table item_id image_urls color_id).filter
            (fun r => r.item_id == item_id) =
          image_urls.enum.map (fun p =>
            { item_id := item_id, url := p.2, is_primary := p.1 == 0,
              color_id := color_id }) ∧
        (upsert_item_images table item_id image_urls color_id).filter
            (fun r => r.item_id != item_id) =
          table.filter (fun r => r.item_id != item_id))) ∧
    (∀ (table : List ColorLink) (item_id : Nat) (color_ids : List Nat),
      (color_ids = [] →
        link_item_colors table item_id color_ids = table) ∧
      (color_ids ≠ [] →
        (∀ r ∈ link_item_colors table item_id color_ids,
            r.item_id = item_id → r.color_id ∈ color_ids) ∧
        (∀ c ∈ color_ids,
            ({ item_id := item_id, color_id := c } : ColorLink) ∈
              link_item_colors table item_id color_ids) ∧
        (∀ r : ColorLink, r.item_id ≠ item_id →
            (r ∈ link_item_colors table item_id color_ids ↔ r ∈ table)))) := by
  constructor
  · intro table item_id image_urls color_id
    constructor
    · intro h; simp [upsert_item_images, h]
    · intro h
      have hne : image_urls.isEmpty = false := by
        simpa [List.isEmpty_iff] using h
      unfold upsert_item_images
      rw [hne]
      simp only [Bool.false_eq_true, if_false, List.filter_append]
      constructor
      · have h1 : (table.filter (fun r => r.item_id != item_id)).filter
            (fun r => r.item_id == item_id) = [] := by
          rw [List.filter_eq_nil_iff]
          intro a ha
          have := (List.mem_filter.mp ha).2
          simp only [bne_iff_ne, ne_eq, decide_eq_true_eq] at this
          simp [this]
        have h2 : (image_urls.enum.map (fun p =>
            ({ item_id := item_id, url := p.2, is_primary := p.1 == 0,
               color_id := color_id } : ImageRow))).filter
            (fun r => r.item_id == item_id) =
          image_urls.enum.map (fun p =>
            { item_id := item_id, url := p.2, is_primary := p.1 == 0,
              color_id := color_id }) := by
          rw [List.filter_eq_self]
          intro a ha
          obtain ⟨p, _, rfl⟩ := List.mem_map.mp ha
          simp
        rw [h1, h2, List.nil_append]
      · have h1 : (table.filter (fun r => r.item_id != item_id)).filter
            (fun r => r.item_id != item_id) =
            table.filter (fun r => r.item_id != item_id) := by
          rw [List.filter_eq_self]
          intro a ha
          exact (List.mem_filter.mp ha).2
        have h2 : (image_urls.enum.map (fun p =>
            ({ item_id := item_id, url := p.2, is_primary := p.1 == 0,
               color_id := color_id } : ImageRow))).filter
            (fun r => r.item_id != item_id) = [] := by
          rw [List.filter_eq_nil_iff]
          intro a ha
          obtain ⟨p, _, rfl⟩ := List.mem_map.mp ha
          simp
        rw [h1, h2, List.append_nil]
  · intro table item_id color_ids
    constructor
    · intro h; simp [link_item_colors, h]
    · intro h
      have hne : color_ids.isEmpty = false := by
        simpa [List.isEmpty_iff] using h
      have hres : ∀ r : ColorLink,
          r ∈ link_item_colors table item_id color_ids ↔
            (r ∈ table.filter (fun x => x.item_id != item_id) ∨
             ∃ c ∈ color_ids, r = { item_id := item_id, color_id := c }) := by
        intro r
        unfold link_item_colors
        rw [hne]
        simpa using linkFold_mem_iff item_id color_ids
          (table.filter (fun x => x.item_id != item_id)) r
      refine ⟨?_, ?_, ?_⟩
      · intro r hr hid
        rcases (hres r).mp hr with h' | ⟨c, hc, rfl⟩
        · have := (List.mem_filter.mp h').2
          simp only [bne_iff_ne, ne_eq, decide_eq_true_eq] at this
          exact absurd hid this
        · simpa using hc
      · intro c hc
        exact (hres _).mpr (Or.inr ⟨c, hc, rfl⟩)
      · intro r hrid
        rw [hres r]
        constructor
        · rintro (h' | ⟨c, hc, rfl⟩)
          · exact (List.mem_filter.mp h').1
          · simp at hrid
        · intro h'
          exact Or.inl (List.mem_filter.mpr ⟨h', by simpa using hrid⟩)

/-- Witness for C2's amended theorem at concrete inputs: an empty URL list
leaves an empty table unchanged, and a one-image sync stores exactly that
enumerated image for the item. -/
theorem C2_wholesale_replacement_witness :
    upsert_item_images [] 5 [] none = ([] : List ImageRow) ∧
    (upsert_item_images [] 5 ["https://img/b.jpg"] none).filter
        (fun r => r.item_id == 5) =
      (["https://img/b.jpg"] : List String).enum.map (fun p =>
        { item_id := 5, url := p.2, is_primary := p.1 == 0,
          color_id := none }) ∧
    link_item_colors [] 5 [] = ([] : List ColorLink) ∧
    ({ item_id := 5, color_id := 3 } : ColorLink) ∈
      link_item_colors [] 5 [3] :=
  ⟨(C2_wholesale_replacement.1 [] 5 [] none).1 rfl,
   ((C2_wholesale_replacement.1 [] 5 ["https://img/b.jpg"] none).2
      (by simp)).1,
   (C2_wholesale_replacement.2 [] 5 []).1 rfl,
   ((C2_wholesale_replacement.2 [] 5 [3]).2 (by simp)).2.1 3 (by simp)⟩

/-- C3 counterexample: re-syncing an item whose stored `sizes_available` is
`["S","M"]` with an extraction reporting `["M","S"]` — the same set of sizes,
in a different order — makes `upsert_item` log a size change, because the
code compares the lists with `!=` rather than comparing them as sets, so the
claim's "set-difference (set equality) comparison" is false on this input. -/
theorem C3_counterexample :
    (upsert_item
        [{ item_id := 1, brand_id := 1, name := "Vestido", description := none,
           price := 0, main_category_id := none, subcategory_id := none,
           sizes := ["S", "M"], sizes_available := ["S", "M"],
           available := true, updated_at := 0 }]
        { name := "Vestido", description := none, price := 0, brand_id := 1,
          category_id := none, subcategory_id := none, sizes := ["S", "M"],
          sizes_available := some ["M", "S"], available := some true }
        9 1).logged_sizes_change = true ∧
    (["S", "M"] : List String).toFinset = (["M", "S"] : List String).toFinset
      := by
  constructor
  · rfl
  · decide

/-- C3 amended, update branch: when the natural-key lookup
`(name, brand_id)` finds a row, `upsert_item` returns that row's id, keeps
the table length, puts the row updated in description, price, sizes,
sizes_available, available and updated_at into the table, leaves every other
row in the table, warns exactly when `available` flips true → false, and
logs a size change exactly when the stored `sizes_available` list differs
from the extraction's as a list (value inequality, not a set comparison). -/
theorem C3_upsert_item (table : List ItemRow) (d : ItemData)
    (new_id now : Nat) :
    (∀ r, table.find? (fun r' =>
        r'.name == d.name && r'.brand_id == d.brand_id) = some r →
      (upsert_item table d new_id now).item_id = r.item_id ∧
      (upsert_item table d new_id now).table.length = table.length ∧
      ({ r with
           description := d.description,
           price := d.price,
           sizes := d.sizes,
           sizes_available := d.sizes_available.getD [],
           available := d.available.getD true,
           updated_at := now } ∈ (upsert_item table d new_id now).table) ∧
      (∀ r' ∈ table, r'.item_id ≠ r.item_id →
          r' ∈ (upsert_item table d new_id now).table) ∧
      ((upsert_item table d new_id now).logged_unavailable = true ↔
        (r.available = true ∧ d.available.getD true = false)) ∧
      ((upsert_item table d new_id now).logged_sizes_change = true ↔
        r.sizes_available ≠ d.sizes_available.getD [])) ∧
    (table.find? (fun r' =>
        r'.name == d.name && r'.brand_id == d.brand_id) = none →
      (upsert_item table d new_id now).item_id = new_id ∧
      (upsert_item table d new_id now).logged_unavailable = false ∧
      (upsert_item table d new_id now).logged_sizes_change = false ∧
      ∃ nr, (upsert_item table d new_id now).table = table ++ [nr] ∧
        nr.name = d.name ∧ nr.brand_id = d.brand_id ∧
        nr.available = d.available.getD true ∧
        (d.available = none → nr.available = true)) := by
  constructor
  · intro r hfind
    have hmem : r ∈ table := List.mem_of_find?_eq_some hfind
    refine ⟨?_, ?_, ?_, ?_, ?_, ?_⟩
    · simp [upsert_item, hfind]
    · simp [upsert_item, hfind]
    · simp only [upsert_item, hfind]
      have : ({ r with
          description := d.description,
          price := d.price,
          sizes := d.sizes,
          sizes_available := d.sizes_available.getD [],
          available := d.available.getD true,
          updated_at := now } : ItemRow) =
        (fun r' => if r'.item_id == r.item_id then
            { r' with
                description := d.description,
                price := d.price,
                sizes := d.sizes,
                sizes_available := d.sizes_available.getD [],
                available := d.available.getD true,
                updated_at := now }
          else r') r := by simp
      rw [this]
      exact List.mem_map_of_mem _ hmem
    · intro r' hr' hne
      simp only [upsert_item, hfind]
      have : r' = (fun x => if x.item_id == r.item_id then
          { x with
              description := d.description,
              price := d.price,
              sizes := d.sizes,
              sizes_available := d.sizes_available.getD [],
              available := d.available.getD true,
              updated_at := now }
        else x) r' := by
        simp only [beq_iff_eq]
        rw [if_neg hne]
      exact this ▸ List.mem_map_of_mem _ hr'
    · simp [upsert_item, hfind, Bool.and_eq_true, Bool.not_eq_true']
    · simp [upsert_item, hfind, bne_iff_ne]
  · intro hfind
    refine ⟨by simp [upsert_item, hfind], by simp [upsert_item, hfind],
      by simp [upsert_item, hfind], ?_⟩
    refine ⟨{ item_id := new_id, brand_id := d.brand_id, name := d.name,
              description := d.description, price := d.price,
              main_category_id := d.category_id,
              subcategory_id := d.subcategory_id,
              sizes := d.sizes,
              sizes_available := d.sizes_available.getD [],
              available := d.available.getD true, updated_at := now },
      by simp [upsert_item, hfind], rfl, rfl, rfl, ?_⟩
    intro h
    simp [h]

/-- Witness for C3's amended theorem: the update branch on a one-row table
returns the stored id, and the insert branch on an empty table returns the
fresh id with `available` defaulted to true. -/
theorem C3_upsert_item_witness :
    (upsert_item
        [{ item_id := 4, brand_id := 2, name := "Top", description := none,
           price := 3, main_category_id := none, subcategory_id := none,
           sizes := [], sizes_available := [], available := true,
           updated_at := 0 }]
        { name := "Top", description := none, price := 5, brand_id := 2,
          category_id := none, subcategory_id := none, sizes := [],
          sizes_available := none, available := none }
        9 1).item_id = 4 ∧
    (upsert_item []
        { name := "Jean", description := none, price := 5, brand_id := 2,
          category_id := none, subcategory_id := none, sizes := [],
          sizes_available := none, available := none }
        9 1).item_id = 9 :=
  ⟨((C3_upsert_item
      [{ item_id := 4, brand_id := 2, name := "Top", description := none,
         price := 3, main_category_id := none, subcategory_id := none,
         sizes := [], sizes_available := [], available := true,
         updated_at := 0 }]
      { name := "Top", description := none, price := 5, brand_id := 2,
        category_id := none, subcategory_id := none, sizes := [],
        sizes_available := none, available := none }
      9 1).1
    { item_id := 4, brand_id := 2, name := "Top", description := none,
      price := 3, main_category_id := none, subcategory_id := none,
      sizes := [], sizes_available := [], available := true,
      updated_at := 0 } (by rfl)).1,
   ((C3_upsert_item []
      { name := "Jean", description := none, price := 5, brand_id := 2,
        category_id := none, subcategory_id := none, sizes := [],
        sizes_available := none, available := none }
      9 1).2 (by rfl)).1⟩

/-- Element of `product_data_list` as read by `sync_product_availability`:
the `p.get('name', '')` read with a missing name collapsed to `""` (both are
falsy), and the two defaulted reads (`available`, `sizes_available`) as
`Option` fields. -/
structure ProductData where
  name : String
  available : Option Bool
  sizes_available : Option (List String)
deriving Repr, DecidableEq

/-- One step of building the Python dict `existing_items`: a later row whose
name is already a key overwrites the stored entry, otherwise the key is
appended in insertion order. -/
def dictInsert (acc : List ItemRow) (r : ItemRow) : List ItemRow :=
  if acc.any (fun x => x.name == r.name) then
    acc.map (fun x => if x.name == r.name then r else x)
  else acc ++ [r]

/-- The dict comprehension `{row[1]: (row[0], row[2], row[3]) for row in
cur.fetchall()}` of `sync_product_availability`, as an association list of
rows keyed by `name`. -/
def existingItemsDict (rows : List ItemRow) : List ItemRow :=
  rows.foldl dictInsert []

/-- The `found_names` set of `sync_product_availability`: names of the run's
records whose name is truthy. -/
def found_names (products : List ProductData) (n : String) : Bool :=
  products.any (fun p => p.name != "" && p.name == n)

/-- The `items_to_mark_unavailable` list of `sync_product_availability`:
ids of dict entries that are currently available and whose name was not
observed. -/
def items_to_mark_ids (existing : List ItemRow)
    (products : List ProductData) : List Nat :=
  (existing.filter (fun r =>
    !(found_names products r.name) && r.available)).map (fun r => r.item_id)

/-- The first `UPDATE` of `sync_product_availability`:
`SET available = false WHERE item_id = ANY(%s)`. -/
def markPass (table : List ItemRow) (ids : List Nat) (now : Nat) :
    List ItemRow :=
  table.map (fun r =>
    if ids.contains r.item_id then
      { r with available := false, updated_at := now }
    else r)

/-- The per-record update loop of `sync_product_availability`: skip a record
with a falsy name or a name that is not a dict key, otherwise
`UPDATE ... WHERE item_id = %s` with the record's defaulted `available` and
`sizes_available`. -/
def updatePass (existing : List ItemRow) (products : List ProductData)
    (now : Nat) (t : List ItemRow) : List ItemRow :=
  products.foldl (fun t p =>
    if p.name == "" then t
    else
      match existing.find? (fun x => x.name == p.name) with
      | none => t
      | some er => t.map (fun r =>
          if r.item_id == er.item_id then
            { r with available := p.available.getD true,
                     sizes_available := p.sizes_available.getD [],
                     updated_at := now }
          else r)) t

/-- Embedding of `SupabaseClient.sync_product_availability`
(`scrapers/supabase_client.py` 401-471): build the by-name dict of the
brand's rows, mark unobserved available ones unavailable, then apply the
per-record updates; `now` stands for `NOW()`. -/
def sync_product_availability (table : List ItemRow) (brand_id : Nat)
    (products : List ProductData) (now : Nat) : List ItemRow :=
  let existing := existingItemsDict
      (table.filter (fun r => r.brand_id == brand_id))
  updatePass existing products now
    (markPass table (items_to_mark_ids existing products) now)

/-- Transcription of C8's description of the reconciliation pass: a row of
the brand whose name is observed among the run's records is updated to the
observed availability and available-sizes values (the last matching record's,
when several share the name); a row that is currently available and whose
name is unobserved is flipped to unavailable; an unavailable unobserved row,
and every row of another brand, is left unchanged. -/
def syncAvailability_claim (table : List ItemRow) (brand_id : Nat)
    (products : List ProductData) (now : Nat) : List ItemRow :=
  table.map (fun r =>
    if r.brand_id == brand_id then
      match products.reverse.find? (fun p => p.name == r.name) with
      | some p =>
          { r with available := p.available.getD true,
                   sizes_available := p.sizes_available.getD [],
                   updated_at := now }
      | none =>
          if r.available then { r with available := false, updated_at := now }
          else r
    else r)

/-- Per-row effect of one iteration of the update loop on a row of the
table, used to factor `updatePass` into a single `List.map`. -/
def rowApply (existing : List ItemRow) (now : Nat) (p : ProductData)
    (x : ItemRow) : ItemRow :=
  if p.name == "" then x
  else
    match existing.find? (fun y => y.name == p.name) with
    | none => x
    | some er =>
        if x.item_id == er.item_id then
          { x with available := p.available.getD true,
                   sizes_available := p.sizes_available.getD [],
                   updated_at := now }
        else x

/-- The update loop is a fold of whole-table `UPDATE`s, each of which is a
map; the loop therefore acts row by row. -/
lemma updatePass_eq_map (existing : List ItemRow) (now : Nat) :
    ∀ (ps : List ProductData) (t : List ItemRow),
      updatePass existing ps now t =
        t.map (fun r => ps.foldl (fun y p => rowApply existing now p y) r) := by
  intro ps
  induction ps with
  | nil => intro t; simp [updatePass]
  | cons p ps ih =>
      intro t
      simp only [updatePass, List.foldl_cons]
      by_cases hname : (p.name == "") = true
      · rw [if_pos hname]
        have hstep : ∀ r : ItemRow, rowApply existing now p r = r := by
          intro r; simp [rowApply, hname]
        simp only [updatePass] at ih
        rw [ih t]
        simp only [hstep]
      · rw [if_neg hname]
        rcases hfind : existing.find? (fun y => y.name == p.name) with _ | er
        · have hstep : ∀ r : ItemRow, rowApply existing now p r = r := by
            intro r; simp [rowApply, hname, hfind]
          rw [hfind]
          simp only [updatePass] at ih
          rw [ih t]
          simp only [hstep]
        · have hstep : ∀ r : ItemRow, rowApply existing now p r =
              (if r.item_id == er.item_id then
                { r with available := p.available.getD true,
                         sizes_available := p.sizes_available.getD [],
                         updated_at := now }
              else r) := by
            intro r; simp [rowApply, hname, hfind]
          rw [hfind]
          simp only [updatePass] at ih
          rw [ih, List.map_map]
          apply List.map_congr_left
          intro r _
          simp only [Function.comp_apply, hstep]

/-- Folding the row-level step over records none of which touch the row
leaves the row unchanged. -/
lemma foldl_rowApply_id (existing : List ItemRow) (now : Nat) :
    ∀ (ps : List ProductData) (x : ItemRow),
      (∀ p ∈ ps, rowApply existing now p x = x) →
      ps.foldl (fun y p => rowApply existing now p y) x = x := by
  intro ps
  induction ps with
  | nil => intro x _; rfl
  | cons p ps ih =>
      intro x h
      simp only [List.foldl_cons, h p (List.mem_cons_self _ _)]
      exact ih x (fun q hq => h q (List.mem_cons_of_mem _ hq))

/-- Building the by-name dict over rows with pairwise-distinct names never
overwrites, so the dict is the row list itself. -/
lemma foldl_dictInsert_eq (rows : List ItemRow) :
    ∀ (acc : List ItemRow),
      (rows.map (fun r => r.name)).Nodup →
      (∀ r ∈ rows, ∀ a ∈ acc, a.name ≠ r.name) →
      rows.foldl dictInsert acc = acc ++ rows := by
  induction rows with
  | nil => intro acc _ _; simp
  | cons r rows ih =>
      intro acc hnd hdisj
      rw [List.map_cons, List.nodup_cons] at hnd
      obtain ⟨hnotin, hnd'⟩ := hnd
      simp only [List.foldl_cons]
      have hany : (acc.any (fun x => x.name == r.name)) = false := by
        rw [List.any_eq_false]
        intro a ha
        simp only [beq_iff_eq]
        exact hdisj r (List.mem_cons_self _ _) a ha
      have hstep : dictInsert acc r = acc ++ [r] := by
        simp [dictInsert, hany]
      have hdisj' : ∀ r' ∈ rows, ∀ a ∈ acc ++ [r], a.name ≠ r'.name := by
        intro r' hr' a ha
        rcases List.mem_append.mp ha with h' | h'
        · exact hdisj r' (List.mem_cons_of_mem _ hr') a h'
        · have ha' : a = r := by simpa using h'
          subst ha'
          intro hcontra
          exact hnotin (by rw [hcontra]; exact List.mem_map_of_mem _ hr')
      rw [hstep, ih (acc ++ [r]) hnd' hdisj']
      simp

/-- With pairwise-distinct names the by-name dict is the row list itself. -/
lemma existingItemsDict_eq_self (rows : List ItemRow)
    (h : (rows.map (fun r => r.name)).Nodup) :
    existingItemsDict rows = rows := by
  simpa using foldl_dictInsert_eq rows [] h (by simp)

/-- Lists agreeing pointwise on a predicate have the same first match. -/
lemma find?_congr_mem {α : Type} (p q : α → Bool) :
    ∀ (l : List α), (∀ a ∈ l, p a = q a) → l.find? p = l.find? q := by
  intro l
  induction l with
  | nil => intro _; rfl
  | cons a l ih =>
      intro h
      rw [List.find?_cons, List.find?_cons, h a (List.mem_cons_self _ _)]
      cases hq : q a
      · exact ih (fun b hb => h b (List.mem_cons_of_mem _ hb))
      · rfl

/-- Effect of one update-loop iteration on a row of the brand: the row is
written exactly when the record's name is truthy and equals the row's name
(using that brand rows have pairwise-distinct names and table rows have
pairwise-distinct ids, so the dict lookup hits this row and no other). -/
lemma rowApply_brand_row (table : List ItemRow) (brand_id : Nat) (now : Nat)
    (hids : (table.map (fun r => r.item_id)).Nodup)
    (hnames : ((table.filter (fun r => r.brand_id == brand_id)).map
        (fun r => r.name)).Nodup)
    (r : ItemRow) (hr : r ∈ table.filter (fun x => x.brand_id == brand_id))
    (p : ProductData) (x : ItemRow) (hx : x.item_id = r.item_id) :
    rowApply (table.filter (fun x => x.brand_id == brand_id)) now p x =
      (if p.name != "" && p.name == r.name then
        { x with available := p.available.getD true,
                 sizes_available := p.sizes_available.getD [],
                 updated_at := now }
      else x) := by
  by_cases hp : p.name = ""
  · simp [rowApply, hp]
  · unfold rowApply
    rw [if_neg (show ¬ ((p.name == "") = true) by simp [hp])]
    rcases hfind : (table.filter (fun x => x.brand_id == brand_id)).find?
        (fun y => y.name == p.name) with _ | er
    · have hne : ¬ (p.name = r.name) := by
        intro hcontra
        have := List.find?_eq_none.mp hfind r hr
        simp [hcontra] at this
      rw [hfind]
      rw [if_neg (show ¬ ((p.name != "" && p.name == r.name) = true) by
        simp [hne])]
    · have hermem : er ∈ table.filter (fun x => x.brand_id == brand_id) :=
        List.mem_of_find?_eq_some hfind
      have hername : er.name = p.name := by
        have := List.find?_some hfind
        simpa using this
      by_cases hpn : p.name = r.name
      · have her : er = r := by
          apply List.inj_on_of_nodup_map hnames hermem hr
          rw [hername, hpn]
        rw [hfind]; dsimp only
        rw [if_pos (show (x.item_id == er.item_id) = true by
              simp [her, hx]),
            if_pos (show (p.name != "" && p.name == r.name) = true by
              simp [hpn]; rw [← hpn]; exact hp)]
      · have herne : ¬ (x.item_id = er.item_id) := by
          intro hcontra
          have hermem' : er ∈ table := (List.mem_filter.mp hermem).1
          have hrmem' : r ∈ table := (List.mem_filter.mp hr).1
          have her : er = r := by
            apply List.inj_on_of_nodup_map hids hermem' hrmem'
            rw [← hcontra, hx]
          apply hpn
          rw [← hername, her]
        rw [hfind]; dsimp only
        rw [if_neg (show ¬ ((x.item_id == er.item_id) = true) by
              simp [herne]),
            if_neg (show ¬ ((p.name != "" && p.name == r.name) = true) by
              simp [hpn])]

/-- A row of another brand is never touched by an update-loop iteration: the
dict only holds the brand's rows and ids are pairwise distinct. -/
lemma rowApply_other_brand (table : List ItemRow) (brand_id : Nat) (now : Nat)
    (hids : (table.map (fun r => r.item_id)).Nodup)
    (r : ItemRow) (hr : r ∈ table) (hbr : ¬ r.brand_id = brand_id)
    (p : ProductData) :
    rowApply (table.filter (fun x => x.brand_id == brand_id)) now p r = r := by
  by_cases hp : p.name = ""
  · simp [rowApply, hp]
  · unfold rowApply
    rw [if_neg (show ¬ ((p.name == "") = true) by simp [hp])]
    rcases hfind : (table.filter (fun x => x.brand_id == brand_id)).find?
        (fun y => y.name == p.name) with _ | er
    · rw [hfind]
    · have hermem : er ∈ table.filter (fun x => x.brand_id == brand_id) :=
        List.mem_of_find?_eq_some hfind
      have herbrand : er.brand_id = brand_id := by
        have := (List.mem_filter.mp hermem).2
        simpa using this
      have herne : ¬ (r.item_id = er.item_id) := by
        intro hcontra
        have hermem' : er ∈ table := (List.mem_filter.mp hermem).1
        have her : er = r := by
          apply List.inj_on_of_nodup_map hids hermem' hr
          rw [hcontra]
        exact hbr (by rw [← her, herbrand])
      rw [hfind]; dsimp only
      rw [if_neg (show ¬ ((r.item_id == er.item_id) = true) by
        simp [herne])]

/-- Folding the whole update loop over a row of the brand applies exactly
the last record whose truthy name equals the row's name, if any: each
earlier matching record's write is overwritten by the later one. -/
lemma rowFold_lastMatch (table : List ItemRow) (brand_id : Nat) (now : Nat)
    (hids : (table.map (fun r => r.item_id)).Nodup)
    (hnames : ((table.filter (fun r => r.brand_id == brand_id)).map
        (fun r => r.name)).Nodup)
    (r : ItemRow) (hr : r ∈ table.filter (fun x => x.brand_id == brand_id)) :
    ∀ (ps : List ProductData) (x : ItemRow), x.item_id = r.item_id →
      ps.foldl (fun y p =>
          rowApply (table.filter (fun x => x.brand_id == brand_id)) now p y)
        x =
        (match ps.reverse.find?
            (fun p => p.name != "" && p.name == r.name) with
        | some p =>
            { x with available := p.available.getD true,
                     sizes_available := p.sizes_available.getD [],
                     updated_at := now }
        | none => x) := by
  intro ps
  induction ps with
  | nil => intro x _; simp
  | cons p ps ih =>
      intro x hx
      simp only [List.foldl_cons]
      rw [rowApply_brand_row table brand_id now hids hnames r hr p x hx]
      rw [List.reverse_cons, List.find?_append]
      by_cases hcond : (p.name != "" && p.name == r.name) = true
      · rw [if_pos hcond]
        have hx' : ({ x with
                        available := p.available.getD true,
                        sizes_available := p.sizes_available.getD [],
                        updated_at := now } : ItemRow).item_id = r.item_id :=
          hx
        rw [ih _ hx']
        rcases hlast : ps.reverse.find?
            (fun p => p.name != "" && p.name == r.name) with _ | q
        · rw [hlast]
          dsimp only
          have hsingle : List.find?
              (fun p => p.name != "" && p.name == r.name) [p] = some p := by
            simp [List.find?_cons, hcond]
          rw [hsingle]
          rfl
        · rw [hlast]
          rfl
      · rw [if_neg hcond]
        rw [ih x hx]
        rcases hlast : ps.reverse.find?
            (fun p => p.name != "" && p.name == r.name) with _ | q
        · rw [hlast]
          dsimp only
          have hsingle : List.find?
              (fun p => p.name != "" && p.name == r.name) [p] = none := by
            simp [List.find?_cons, hcond]
          rw [hsingle]
          rfl
        · rw [hlast]
          rfl

/-- C8: under the store's natural-key invariants (brand rows have non-empty,
pairwise-distinct names; item ids are pairwise distinct),
`sync_product_availability` flips to unavailable exactly the brand's rows
that are currently available and whose name is not observed among the run's
records, updates each observed row to the observed availability and
available-sizes values (the last matching record's), and leaves unavailable
unobserved rows and other brands' rows unchanged. -/
theorem C8_sync_availability (table : List ItemRow) (brand_id : Nat)
    (products : List ProductData) (now : Nat)
    (hnempty : ∀ r ∈ table, r.brand_id = brand_id → r.name ≠ "")
    (hnames : ((table.filter (fun r => r.brand_id == brand_id)).map
        (fun r => r.name)).Nodup)
    (hids : (table.map (fun r => r.item_id)).Nodup) :
    sync_product_availability table brand_id products now =
      syncAvailability_claim table brand_id products now := by
  have h0 : sync_product_availability table brand_id products now =
      updatePass
        (existingItemsDict (table.filter (fun r => r.brand_id == brand_id)))
        products now
        (markPass table
          (items_to_mark_ids
            (existingItemsDict
              (table.filter (fun r => r.brand_id == brand_id)))
            products) now) := rfl
  rw [h0, existingItemsDict_eq_self _ hnames, updatePass_eq_map]
  unfold markPass syncAvailability_claim
  rw [List.map_map]
  apply List.map_congr_left
  intro r hrmem
  simp only [Function.comp_apply]
  by_cases hbr : r.brand_id = brand_id
  · have hrB : r ∈ table.filter (fun x => x.brand_id == brand_id) :=
      List.mem_filter.mpr ⟨hrmem, by simp [hbr]⟩
    have hrname : r.name ≠ "" := hnempty r hrmem hbr
    have hpred : products.reverse.find? (fun p => p.name == r.name) =
        products.reverse.find?
          (fun p => p.name != "" && p.name == r.name) := by
      apply find?_congr_mem
      intro a _
      by_cases ha : a.name = r.name
      · simp [ha, hrname]
      · simp [ha]
    have hmark : (items_to_mark_ids
        (table.filter (fun x => x.brand_id == brand_id)) products).contains
          r.item_id =
        (!(found_names products r.name) && r.available) := by
      rw [Bool.eq_iff_iff]
      constructor
      · intro hc
        simp only [items_to_mark_ids, List.contains_eq_any_beq,
          List.any_eq_true, beq_iff_eq] at hc
        obtain ⟨i, hi, hieq⟩ := hc
        obtain ⟨er, hermem, herid⟩ := List.mem_map.mp hi
        have her : er = r := by
          apply List.inj_on_of_nodup_map hids
            (List.mem_filter.mp ((List.mem_filter.mp hermem).1)).1 hrmem
          rw [herid, hieq]
        have := (List.mem_filter.mp hermem).2
        rw [her] at this
        exact this
      · intro hp2
        have hmem2 : r ∈ (table.filter
            (fun x => x.brand_id == brand_id)).filter
            (fun x => !(found_names products x.name) && x.available) :=
          List.mem_filter.mpr ⟨hrB, hp2⟩
        simp only [items_to_mark_ids, List.contains_eq_any_beq,
          List.any_eq_true, beq_iff_eq]
        exact ⟨r.item_id, List.mem_map_of_mem _ hmem2, rfl⟩
    rcases hobs : products.reverse.find?
        (fun p => p.name != "" && p.name == r.name) with _ | p
    · have hfoundf : found_names products r.name = false := by
        unfold found_names
        rw [List.any_eq_false]
        intro p hp
        have := List.find?_eq_none.mp hobs p (List.mem_reverse.mpr hp)
        simpa using this
      rw [hmark, hfoundf]
      simp only [Bool.not_false, Bool.true_and]
      by_cases hav : r.available = true
      · rw [if_pos hav]
        rw [rowFold_lastMatch table brand_id now hids hnames r hrB products
          ({ r with available := false, updated_at := now } : ItemRow)
          (by rfl)]
        rw [if_pos (show (r.brand_id == brand_id) = true by simp [hbr]),
            hpred, hobs]
      · rw [if_neg hav]
        rw [rowFold_lastMatch table brand_id now hids hnames r hrB products
          r rfl]
        rw [if_pos (show (r.brand_id == brand_id) = true by simp [hbr]),
            hpred, hobs]
    · have hfoundt : found_names products r.name = true := by
        unfold found_names
        rw [List.any_eq_true]
        refine ⟨p, List.mem_reverse.mp (List.mem_of_find?_eq_some hobs), ?_⟩
        have := List.find?_some hobs
        simpa using this
      rw [hmark, hfoundt]
      simp only [Bool.not_true, Bool.false_and, Bool.false_eq_true, if_false]
      rw [rowFold_lastMatch table brand_id now hids hnames r hrB products
        r rfl]
      rw [if_pos (show (r.brand_id == brand_id) = true by simp [hbr]),
          hpred, hobs]
  · have hnotin : ¬ ((items_to_mark_ids
        (table.filter (fun x => x.brand_id == brand_id)) products).contains
          r.item_id = true) := by
      intro hc
      simp only [items_to_mark_ids, List.contains_eq_any_beq,
        List.any_eq_true, beq_iff_eq] at hc
      obtain ⟨i, hi, hieq⟩ := hc
      obtain ⟨er, hermem, herid⟩ := List.mem_map.mp hi
      have hermem' : er ∈ table.filter (fun x => x.brand_id == brand_id) :=
        (List.mem_filter.mp hermem).1
      have her : er = r := by
        apply List.inj_on_of_nodup_map hids (List.mem_filter.mp hermem').1
          hrmem
        rw [herid, hieq]
      have := (List.mem_filter.mp hermem').2
      rw [her] at this
      simp only [beq_iff_eq, decide_eq_true_eq] at this
      exact hbr this
    rw [if_neg hnotin]
    rw [foldl_rowApply_id _ now products r
      (fun p _ => rowApply_other_brand table brand_id now hids r hrmem hbr p)]
    rw [if_neg (show ¬ ((r.brand_id == brand_id) = true) by simp [hbr])]

/-- Witness for C8 at a concrete store: for brand 7, the available unobserved
item "A" is flipped to unavailable, the observed item "B" is updated to the
observed availability and sizes, and brand 8's row is untouched. -/
theorem C8_sync_availability_witness :
    sync_product_availability
      [⟨1, 7, "A", none, 0, none, none, [], [], true, 0⟩,
       ⟨2, 7, "B", none, 0, none, none, [], ["S"], true, 0⟩,
       ⟨3, 8, "C", none, 0, none, none, [], [], true, 0⟩] 7
      [⟨"B", some true, some ["M"]⟩] 5 =
    [⟨1, 7, "A", none, 0, none, none, [], [], false, 5⟩,
     ⟨2, 7, "B", none, 0, none, none, [], ["M"], true, 5⟩,
     ⟨3, 8, "C", none, 0, none, none, [], [], true, 0⟩] := by
  rw [C8_sync_availability _ 7 _ 5 (by decide) (by decide) (by decide)]
  decide

/-! ## Bounded Concurrent Extractor (`rapsodia_scrapper.py` 840-915,
2243-2354) -/

/-- Fields of the dict returned by `extract_product_details` that the
formatting and validation steps read.  The real function always sets `url`
to its input URL (line 2017); `nombre_producto` and `description` start as
`None`/`''`, both falsy and collapsed to `""` here. -/
structure ProductInfo where
  url : String
  nombre_producto : String
  description : String
deriving Repr, DecidableEq

/-- Fields of the `formatted_info` dict read by `validate_product_data`. -/
structure FormattedInfo where
  url : String
  title : String
  description : String
deriving Repr, DecidableEq

/-- The conversion of `extract_product_details` output to `formatted_info`
(`rapsodia_scrapper.py` 862-877 and 2318-2333), restricted to the fields
validation reads: `url` is `product_info.get('url', url)` and the `url` key
is always present, `title` is `get('nombre_producto', '')`, `description`
is `get('description', '')`. -/
def formatProduct (pi : ProductInfo) : FormattedInfo :=
  { url := pi.url, title := pi.nombre_producto, description := pi.description }

/-- Embedding of `RapsodiaSafeScraper.validate_product_data`
(`rapsodia_scrapper.py` 239-267): requires a truthy URL that starts with
`http` and a truthy title or description; the JavaScript-message check only
logs and never invalidates. -/
def validate_product_data (p : FormattedInfo) : Bool :=
  if p.url == "" then false
  else if ¬ (p.url.startsWith "http") then false
  else if p.title == "" && p.description == "" then false
  else true

/-- State of the extractor that the embedded functions read and write: the
process-lifetime `product_urls_extracted` set, the products stored for the
current category key, and a log of the URLs for which
`extract_product_details` (the fetch) was invoked. -/
structure ExtractorState where
  product_urls_extracted : List String
  saved : List FormattedInfo
  fetched : List String
deriving Repr, DecidableEq

/-- Embedding of the inner `process_single_product` task of
`process_products` (`rapsodia_scrapper.py` 2268-2285): skip (returning
`None`) if the URL is already extracted, otherwise fetch; mark the URL
extracted only when extraction returned a truthy result; an exception or a
`None` result leaves the URL unmarked.  `env` is the oracle for
`extract_product_details` (`none` covering both a `None` return and an
exception). -/
def process_single_product (env : String → Option ProductInfo)
    (s : ExtractorState) (url : String) :
    ExtractorState × Option (String × Option ProductInfo) :=
  if url ∈ s.product_urls_extracted then (s, none)
  else
    match env url with
    | some pi =>
        ({ s with fetched := s.fetched ++ [url],
                  product_urls_extracted :=
                    s.product_urls_extracted ++ [url] },
         some (url, some pi))
    | none =>
        ({ s with fetched := s.fetched ++ [url] }, some (url, none))

/-- The batched `asyncio.gather` of `process_products`
(`rapsodia_scrapper.py` 2287-2302), sequentialized: each URL of the
(deduplicated, set-typed) input runs `process_single_product` once and the
non-`None` task results are collected in order. -/
def runExtract (env : String → Option ProductInfo) :
    ExtractorState → List String →
      ExtractorState × List (String × Option ProductInfo)
  | s, [] => (s, [])
  | s, u :: rest =>
      let step := process_single_product env s u
      let tail := runExtract env step.1 rest
      (tail.1, match step.2 with
               | none => tail.2
               | some x => x :: tail.2)

/-- The per-result body of the results loop of `process_products`
(`rapsodia_scrapper.py` 2304-2352): a failed extraction stores nothing; a
successful one is formatted, validated and, only when valid, appended to
`products_by_category`. -/
def saveOne (s : ExtractorState) (x : String × Option ProductInfo) :
    ExtractorState :=
  match x.2 with
  | some pi =>
      if validate_product_data (formatProduct pi) then
        { s with saved := s.saved ++ [formatProduct pi] }
      else s
  | none => s

/-- Embedding of `RapsodiaSafeScraper.process_products`
(`rapsodia_scrapper.py` 2243-2354): filter out already-extracted URLs,
return early if nothing is left, otherwise run the extraction tasks and then
the results loop. -/
def process_products (env : String → Option ProductInfo)
    (urls : List String) (s : ExtractorState) : ExtractorState :=
  let urls_to_process :=
    urls.filter (fun u => u ∉ s.product_urls_extracted)
  if urls_to_process.isEmpty then s
  else
    let r := runExtract env s urls_to_process
    r.2.foldl saveOne r.1

/-- Embedding of `RapsodiaSafeScraper.parse_product_page`
(`rapsodia_scrapper.py` 840-915): return `{}` (here `none`) if the URL was
already extracted; otherwise fetch, format, validate, and only then — unlike
`process_products` — mark the URL extracted and store the product. -/
def parse_product_page (env : String → Option ProductInfo)
    (s : ExtractorState) (url : String) :
    ExtractorState × Option FormattedInfo :=
  if url ∈ s.product_urls_extracted then (s, none)
  else
    match env url with
    | none => ({ s with fetched := s.fetched ++ [url] }, none)
    | some pi =>
        if ¬ validate_product_data (formatProduct pi) then
          ({ s with fetched := s.fetched ++ [url] }, none)
        else
          ({ s with fetched := s.fetched ++ [url],
                    product_urls_extracted :=
                      s.product_urls_extracted ++ [url],
                    saved := s.saved ++ [formatProduct pi] },
           some (formatProduct pi))

/-- C4 counterexample: with an extractor that returns a record whose URL
fails validation (it does not start with `http`), `process_products` on a
fresh state saves nothing — the record is dropped by validation — yet the
URL is added to `product_urls_extracted`, because marking happens right
after extraction, before validation; the claim that a validation failure
leaves the URL unmarked is therefore false. -/
theorem C4_counterexample :
    ((process_products (fun _ => some ⟨"x", "Top", ""⟩)
        ["https://www.rapsodia.com.ar/woman/top1"] ⟨[], [], []⟩).saved =
      []) ∧
    "https://www.rapsodia.com.ar/woman/top1" ∈
      (process_products (fun _ => some ⟨"x", "Top", ""⟩)
        ["https://www.rapsodia.com.ar/woman/top1"]
        ⟨[], [], []⟩).product_urls_extracted := by
  decide

/-- Specification of the extraction pass over URLs none of which are already
extracted: every URL is fetched once in order, a URL is marked exactly when
its extraction succeeds, nothing is stored yet, and the task results pair
each URL with its extraction outcome. -/
lemma runExtract_spec (env : String → Option ProductInfo) :
    ∀ (l : List String) (s : ExtractorState), l.Nodup →
      (∀ u ∈ l, u ∉ s.product_urls_extracted) →
      (runExtract env s l).1.product_urls_extracted =
          s.product_urls_extracted ++
            l.filter (fun u => (env u).isSome) ∧
      (runExtract env s l).1.fetched = s.fetched ++ l ∧
      (runExtract env s l).1.saved = s.saved ∧
      (runExtract env s l).2 = l.map (fun u => (u, env u)) := by
  intro l
  induction l with
  | nil => intro s _ _; simp [runExtract]
  | cons u rest ih =>
      intro s hnd hpre
      have hu : u ∉ s.product_urls_extracted :=
        hpre u (List.mem_cons_self _ _)
      rw [List.nodup_cons] at hnd
      obtain ⟨hun, hnd'⟩ := hnd
      rcases henv : env u with _ | pi
      · have hrun : runExtract env s (u :: rest) =
            ((runExtract env { s with fetched := s.fetched ++ [u] } rest).1,
             (u, none) ::
               (runExtract env
                 { s with fetched := s.fetched ++ [u] } rest).2) := by
          simp [runExtract, process_single_product, hu, henv]
        obtain ⟨h1, h2, h3, h4⟩ :=
          ih { s with fetched := s.fetched ++ [u] } hnd'
            (fun v hv => hpre v (List.mem_cons_of_mem _ hv))
        rw [hrun]
        refine ⟨?_, ?_, ?_, ?_⟩
        · rw [h1]; simp [List.filter_cons, henv]
        · rw [h2]; simp
        · rw [h3]
        · rw [h4]; simp [henv]
      · have hrun : runExtract env s (u :: rest) =
            ((runExtract env
                { s with fetched := s.fetched ++ [u],
                         product_urls_extracted :=
                           s.product_urls_extracted ++ [u] } rest).1,
             (u, some pi) ::
               (runExtract env
                 { s with fetched := s.fetched ++ [u],
                          product_urls_extracted :=
                            s.product_urls_extracted ++ [u] } rest).2) := by
          simp [runExtract, process_single_product, hu, henv]
        obtain ⟨h1, h2, h3, h4⟩ :=
          ih { s with fetched := s.fetched ++ [u],
                      product_urls_extracted :=
                        s.product_urls_extracted ++ [u] } hnd'
            (fun v hv => by
              simp only [List.mem_append, List.mem_singleton]
              rintro (hv' | rfl)
              · exact hpre v (List.mem_cons_of_mem _ hv) hv'
              · exact hun hv)
        rw [hrun]
        refine ⟨?_, ?_, ?_, ?_⟩
        · rw [h1]; simp [List.filter_cons, henv]
        · rw [h2]; simp
        · rw [h3]
        · rw [h4]; simp [henv]

/-- Outcome of the results loop for one task result: the stored record, when
extraction succeeded and the formatted record validates. -/
def saveFn (x : String × Option ProductInfo) : Option FormattedInfo :=
  match x.2 with
  | some pi =>
      if validate_product_data (formatProduct pi) then
        some (formatProduct pi)
      else none
  | none => none

/-- The results loop only appends to the stored products: it is the fold of
`saveOne`, which filters the task results through `saveFn`. -/
lemma saveFold_eq :
    ∀ (rs : List (String × Option ProductInfo)) (s : ExtractorState),
      rs.foldl saveOne s = { s with saved := s.saved ++ rs.filterMap saveFn }
      := by
  intro rs
  induction rs with
  | nil => intro s; simp
  | cons x rs ih =>
      intro s
      simp only [List.foldl_cons]
      rcases hx : x.2 with _ | pi
      · rw [show saveOne s x = s by simp [saveOne, hx]]
        rw [ih]
        simp [List.filterMap_cons, saveFn, hx]
      · by_cases hv : validate_product_data (formatProduct pi) = true
        · rw [show saveOne s x =
              { s with saved := s.saved ++ [formatProduct pi] } by
            simp [saveOne, hx, hv]]
          rw [ih]
          simp [List.filterMap_cons, saveFn, hx, hv]
        · rw [show saveOne s x = s by simp [saveOne, hx, hv]]
          rw [ih]
          simp [List.filterMap_cons, saveFn, hx, hv]

/-- A record produced by the results loop carries the URL it came from. -/
lemma saved_url_mem (env : String → Option ProductInfo)
    (hwf : ∀ u pi, env u = some pi → pi.url = u) :
    ∀ (l : List String) (f : FormattedInfo),
      f ∈ l.filterMap (fun u => saveFn (u, env u)) → f.url ∈ l := by
  intro l f hf
  obtain ⟨u, hu, hsf⟩ := List.mem_filterMap.mp hf
  rcases henv : env u with _ | pi
  · simp [saveFn, henv] at hsf
  · simp only [saveFn, henv] at hsf
    by_cases hv : validate_product_data (formatProduct pi) = true
    · rw [if_pos hv, Option.some.injEq] at hsf
      have : f.url = u := by rw [← hsf]; exact hwf u pi henv
      rw [this]; exact hu
    · rw [if_neg hv] at hsf
      exact absurd hsf (by simp)

/-- With pairwise-distinct input URLs, at most one stored record carries any
given URL. -/
lemma saved_count_le_one (env : String → Option ProductInfo)
    (hwf : ∀ u pi, env u = some pi → pi.url = u) :
    ∀ (l : List String), l.Nodup → ∀ u0 : String,
      ((l.filterMap (fun u => saveFn (u, env u))).filter
        (fun f => f.url == u0)).length ≤ 1 := by
  intro l
  induction l with
  | nil => intro _ u0; simp
  | cons u rest ih =>
      intro hnd u0
      rw [List.nodup_cons] at hnd
      obtain ⟨hun, hnd'⟩ := hnd
      rw [List.filterMap_cons]
      rcases hsf : saveFn (u, env u) with _ | f
      · exact ih hnd' u0
      · have hfu : f.url = u := by
          rcases henv : env u with _ | pi
          · simp [saveFn, henv] at hsf
          · simp only [saveFn, henv] at hsf
            by_cases hv : validate_product_data (formatProduct pi) = true
            · rw [if_pos hv, Option.some.injEq] at hsf
              rw [← hsf]; exact hwf u pi henv
            · rw [if_neg hv] at hsf
              exact absurd hsf (by simp)
        rw [List.filter_cons]
        by_cases hu0 : (f.url == u0) = true
        · rw [if_pos hu0]
          have hrest : (rest.filterMap
              (fun u => saveFn (u, env u))).filter
                (fun g => g.url == u0) = [] := by
            rw [List.filter_eq_nil_iff]
            intro g hg
            have hgu : g.url ∈ rest := saved_url_mem env hwf rest g hg
            simp only [beq_iff_eq]
            intro hcontra
            apply hun
            have hu0u : u0 = u := by
              rw [← hfu]
              exact (beq_iff_eq.mp hu0).symm
            rw [← hu0u, ← hcontra]
            exact hgu
          rw [hrest]
          simp
        · rw [if_neg hu0]
          exact ih hnd' u0

/-- Combined specification of one `process_products` call from an arbitrary
starting state: already-extracted URLs are skipped before any fetch, the
remaining ones are fetched once each, marked exactly on successful
extraction, and stored exactly when extraction succeeded and validation
passed. -/
lemma process_products_spec (env : String → Option ProductInfo)
    (urls : List String) (hnd : urls.Nodup) (s : ExtractorState) :
    (process_products env urls s).fetched =
        s.fetched ++
          urls.filter (fun u => u ∉ s.product_urls_extracted) ∧
    (process_products env urls s).product_urls_extracted =
        s.product_urls_extracted ++
          (urls.filter (fun u => u ∉ s.product_urls_extracted)).filter
            (fun u => (env u).isSome) ∧
    (process_products env urls s).saved =
        s.saved ++
          (urls.filter (fun u => u ∉ s.product_urls_extracted)).filterMap
            (fun u => saveFn (u, env u)) := by
  have h0 : process_products env urls s =
      (if (urls.filter
            (fun u => u ∉ s.product_urls_extracted)).isEmpty then s
       else
        (runExtract env s
          (urls.filter (fun u => u ∉ s.product_urls_extracted))).2.foldl
          saveOne
          (runExtract env s
            (urls.filter (fun u => u ∉ s.product_urls_extracted))).1) := rfl
  by_cases hemp : (urls.filter
      (fun u => u ∉ s.product_urls_extracted)).isEmpty = true
  · rw [h0, if_pos hemp]
    rw [List.isEmpty_iff] at hemp
    rw [hemp]
    simp
  · rw [h0, if_neg hemp]
    obtain ⟨h1, h2, h3, h4⟩ := runExtract_spec env
      (urls.filter (fun u => u ∉ s.product_urls_extracted)) s
      (hnd.filter _)
      (fun u hu => by
        have := (List.mem_filter.mp hu).2
        simpa using this)
    rw [saveFold_eq]
    refine ⟨by rw [h2], by rw [h1], ?_⟩
    rw [h3, h4, List.filterMap_map]
    rfl

/-- C4 amended: starting from a fresh process, `process_products` fetches
every URL of a (set-typed, hence duplicate-free) input exactly once and
marks exactly the successfully extracted ones — a validation failure after
successful extraction still marks the URL; feeding the same input again
re-fetches exactly the URLs whose extraction failed (so exactly one fetch
across both feedings for a URL whose first extraction succeeded), saves no
additional record, and at most one stored record carries any given URL.
`parse_product_page` skips already-extracted URLs without a fetch, and —
unlike `process_products` — marks a URL only when extraction succeeded and
validation passed. -/
theorem C4_extractor_dedup (env : String → Option ProductInfo)
    (urls : List String) (hnd : urls.Nodup)
    (hwf : ∀ u pi, env u = some pi → pi.url = u) :
    (process_products env urls ⟨[], [], []⟩).fetched = urls ∧
    (process_products env urls ⟨[], [], []⟩).product_urls_extracted =
      urls.filter (fun u => (env u).isSome) ∧
    (process_products env urls
        (process_products env urls ⟨[], [], []⟩)).fetched =
      urls ++ urls.filter (fun u => (env u).isNone) ∧
    (process_products env urls
        (process_products env urls ⟨[], [], []⟩)).saved =
      (process_products env urls ⟨[], [], []⟩).saved ∧
    (∀ u0 : String,
      (((process_products env urls ⟨[], [], []⟩).saved).filter
        (fun f => f.url == u0)).length ≤ 1) ∧
    (∀ (s : ExtractorState) (url : String),
        url ∈ s.product_urls_extracted →
        parse_product_page env s url = (s, none)) ∧
    (∀ (s : ExtractorState) (url : String),
        url ∉ s.product_urls_extracted →
        (url ∈ (parse_product_page env s url).1.product_urls_extracted ↔
          ∃ pi, env url = some pi ∧
            validate_product_data (formatProduct pi) = true)) := by
  obtain ⟨hf1, he1, hs1⟩ := process_products_spec env urls hnd ⟨[], [], []⟩
  have hfilter0 : urls.filter (fun u =>
      u ∉ (⟨[], [], []⟩ : ExtractorState).product_urls_extracted) = urls :=
    List.filter_eq_self.mpr (by intro a _; simp)
  rw [hfilter0] at hf1 he1 hs1
  simp only [List.nil_append] at hf1 he1 hs1
  have hfilter2 : urls.filter (fun u =>
      u ∉ (process_products env urls
        ⟨[], [], []⟩).product_urls_extracted) =
      urls.filter (fun u => (env u).isNone) := by
    apply List.filter_congr
    intro u hu
    rw [he1]
    rcases h : env u with _ | pi
    · simp only [Option.isNone_none]
      have : u ∉ urls.filter (fun u => (env u).isSome) := by
        intro hcontra
        have := (List.mem_filter.mp hcontra).2
        rw [h] at this
        simp at this
      simp [this]
    · simp only [Option.isNone_some]
      have : u ∈ urls.filter (fun u => (env u).isSome) :=
        List.mem_filter.mpr ⟨hu, by rw [h]; simp⟩
      simp [this]
  obtain ⟨hf2, he2, hs2⟩ :=
    process_products_spec env urls hnd (process_products env urls ⟨[], [], []⟩)
  rw [hfilter2] at hf2 hs2
  refine ⟨hf1, he1, ?_, ?_, ?_, ?_, ?_⟩
  · rw [hf2, hf1]
  · rw [hs2]
    have : (urls.filter (fun u => (env u).isNone)).filterMap
        (fun u => saveFn (u, env u)) = [] := by
      rw [List.filterMap_eq_nil_iff]
      intro u hu
      have := (List.mem_filter.mp hu).2
      rcases h : env u with _ | pi
      · simp [saveFn, h]
      · rw [h] at this; simp at this
    rw [this, List.append_nil]
  · intro u0
    rw [hs1]
    exact saved_count_le_one env hwf urls hnd u0
  · intro s url h
    simp [parse_product_page, h]
  · intro s url h
    unfold parse_product_page
    rw [if_neg h]
    rcases henv : env url with _ | pi
    · simp [h]
    · dsimp only
      by_cases hv : validate_product_data (formatProduct pi) = true
      · rw [if_neg (by simp [hv])]
        simp [hv]
      · rw [if_pos (by simp [hv])]
        simp [h, hv]

/-- Witness for C4's amended theorem at a concrete input: a single URL with
a well-formed extractor is fetched once and marked extracted. -/
theorem C4_extractor_dedup_witness :
    (process_products (fun u => some ⟨u, "Top", ""⟩)
        ["https://www.rapsodia.com.ar/woman/top1"] ⟨[], [], []⟩).fetched =
      ["https://www.rapsodia.com.ar/woman/top1"] ∧
    (process_products (fun u => some ⟨u, "Top", ""⟩)
        ["https://www.rapsodia.com.ar/woman/top1"]
        ⟨[], [], []⟩).product_urls_extracted =
      ["https://www.rapsodia.com.ar/woman/top1"] := by
  have h := C4_extractor_dedup (fun u => some ⟨u, "Top", ""⟩)
    ["https://www.rapsodia.com.ar/woman/top1"] (by decide)
    (fun u pi hpi => by cases hpi; rfl)
  refine ⟨h.1, ?_⟩
  rw [h.2.1]
  decide

/-! ## Sizes subset invariant (`rapsodia_scrapper.py` 2084-2118, 2356-2440;
`scrapers/mappers.py` 121-142) -/

/-- Python `str.strip()` over the character list (whitespace at both ends);
kernel-computable equivalent of `String.trim` on the ASCII inputs handled
here. -/
def pyStrip (s : String) : String :=
  ⟨((s.data.dropWhile (fun c => c.isWhitespace)).reverse.dropWhile
      (fun c => c.isWhitespace)).reverse⟩

/-- Python `str.upper()` over the character list (ASCII case mapping, as in
`String.toUpper`). -/
def pyUpper (s : String) : String :=
  ⟨s.data.map Char.toUpper⟩

/-- Python `str.lower()` over the character list (ASCII case mapping, as in
`String.toLower`). -/
def pyLower (s : String) : String :=
  ⟨s.data.map Char.toLower⟩

/-- Python `str.split(sep)` for a one-character separator: splits on every
occurrence, keeping empty fields. -/
def splitOnChar (sep : Char) : List Char → List (List Char)
  | [] => [[]]
  | c :: rest =>
      let r := splitOnChar sep rest
      if c == sep then [] :: r
      else
        match r with
        | [] => [[c]]
        | h :: t => (c :: h) :: t

/-- HTML swatch element as read by the size-extraction loop and
`is_element_disabled`: attribute reads with missing values collapsed to
`""` (or `false` for the bare `disabled` attribute), `text` standing for
`get_text(strip=True)`. -/
structure TalleElement where
  data_option_label : String
  text : String
  aria_label : String
  data_option_tooltip_value : String
  disabled_attr : Bool
  classes : List String
  data_option_empty : String
  tabindex : String
  style : String
deriving Repr, DecidableEq

/-- Embedding of `RapsodiaSafeScraper.is_element_disabled`
(`rapsodia_scrapper.py` 2356-2391).  The `if not element` guard corresponds
to a `None` argument, which the size loop never passes. -/
def is_element_disabled (e : TalleElement) : Bool :=
  if e.disabled_attr then true
  else if ["disabled", "unavailable", "out-of-stock", "no-stock"].any
      (fun c => e.classes.contains c) then true
  else if e.data_option_empty == "true" then true
  else if e.tabindex != "" && e.tabindex == "-1" then true
  else if decide (List.IsInfix "opacity: 0.5".data (pyLower e.style).data) ||
          decide (List.IsInfix "opacity:0.5".data (pyLower e.style).data) ||
          decide (List.IsInfix "opacity: 0.3".data (pyLower e.style).data) then
    true
  else false

/-- The `letter_mapping` dict of `normalize_size_letter`
(`rapsodia_scrapper.py` 2449-2461); every key maps to itself. -/
def size_letter_mapping : List (String × String) :=
  [("XS", "XS"), ("S", "S"), ("M", "M"), ("L", "L"), ("XL", "XL"),
   ("XXL", "XXL"), ("XXXL", "XXXL"), ("P", "P"), ("G", "G"), ("GG", "GG"),
   ("XG", "XG")]

/-- Embedding of `RapsodiaSafeScraper.normalize_size_letter`
(`rapsodia_scrapper.py` 2442-2463): strip, uppercase, look up in the
identity mapping with the stripped letter as default. -/
def normalize_size_letter (letter : String) : String :=
  let l := pyUpper (pyStrip letter)
  match size_letter_mapping.find? (fun kv => kv.1 == l) with
  | some kv => kv.2
  | none => l

/-- The `size_mapping` dict of `clean_size_text`
(`rapsodia_scrapper.py` 2421-2433). -/
def clean_size_mapping : List (String × String) :=
  [("XS", "XS"), ("xs", "XS"), ("S", "S"), ("s", "S"), ("M", "M"),
   ("m", "M"), ("L", "L"), ("l", "L"), ("XL", "XL"), ("xl", "XL"),
   ("XXL", "XXL"), ("xxl", "XXL"), ("XXXL", "XXXL"), ("xxxl", "XXXL"),
   ("P", "P"), ("p", "P"), ("G", "G"), ("g", "G"), ("GG", "GG"),
   ("gg", "GG"), ("XG", "XG"), ("xg", "XG")]

/-- Embedding of `RapsodiaSafeScraper.clean_size_text`
(`rapsodia_scrapper.py` 2395-2440): empty input stays empty; a
`number/letter` pair is rebuilt with the letter normalized; otherwise the
mapping is consulted and the fallback is the stripped text uppercased. -/
def clean_size_text (size_text : String) : String :=
  if size_text == "" then ""
  else
    let cleaned := pyStrip size_text
    let viaSlash : Option String :=
      if cleaned.data.any (fun c => c == '/') then
        let parts := (splitOnChar '/' cleaned.data).map (fun l => (⟨l⟩ : String))
        if parts.length == 2 then
          some (pyStrip (parts.getD 0 "") ++ "/" ++
            normalize_size_letter (pyStrip (parts.getD 1 "")))
        else none
      else none
    match viaSlash with
    | some r => r
    | none =>
        match clean_size_mapping.find? (fun kv => kv.1 == cleaned) with
        | some kv => kv.2
        | none => pyUpper cleaned

/-- The label-choosing chain of the size loop
(`rapsodia_scrapper.py` 2087-2097): `data-option-label`, else the element
text, else `aria-label` or `data-option-tooltip-value`. -/
def talleLabel (e : TalleElement) : String :=
  let l1 := pyStrip e.data_option_label
  let l2 := if l1 == "" then e.text else l1
  if l2 == "" then
    if pyStrip e.aria_label != "" then pyStrip e.aria_label
    else pyStrip e.data_option_tooltip_value
  else l2

/-- Embedding of the size-extraction loop of `extract_product_details`
(`rapsodia_scrapper.py` 2084-2118), accumulating `talles_disponibles` and
`talles_todos` over the selected swatch elements. -/
def extractSizesAux :
    List TalleElement → List String → List String →
      List String × List String
  | [], disponibles, todos => (disponibles, todos)
  | e :: rest, disponibles, todos =>
      if talleLabel e == "" then extractSizesAux rest disponibles todos
      else if clean_size_text (talleLabel e) == "" then
        extractSizesAux rest disponibles todos
      else if is_element_disabled e then
        extractSizesAux rest disponibles
          (if clean_size_text (talleLabel e) ∈ todos then todos
           else todos ++ [clean_size_text (talleLabel e)])
      else
        extractSizesAux rest (disponibles ++ [clean_size_text (talleLabel e)])
          (if clean_size_text (talleLabel e) ∈ todos then todos
           else todos ++ [clean_size_text (talleLabel e)])

/-- The loop starts with both lists empty (`rapsodia_scrapper.py`
2084-2085). -/
def extract_sizes (elems : List TalleElement) : List String × List String :=
  extractSizesAux elems [] []

/-- Embedding of `normalize_sizes` (`scrapers/mappers.py` 121-142): empty
input yields `[]`; otherwise each truthy entry is stripped, uppercased and
appended unless falsy or already present. -/
def normalize_sizes (sizes : List String) : List String :=
  if sizes.isEmpty then []
  else
    sizes.foldl (fun normalized size =>
      if size ≠ "" then
        if pyUpper (pyStrip size) ≠ "" ∧ pyUpper (pyStrip size) ∉ normalized then
          normalized ++ [pyUpper (pyStrip size)]
        else normalized
      else normalized) []

/-- Loop invariant of the size extraction: whenever every accumulated
available size already occurs in the accumulated full list, the final
available list is contained in the final full list. -/
lemma extractSizesAux_subset :
    ∀ (elems : List TalleElement) (d t : List String),
      (∀ x ∈ d, x ∈ t) →
      ∀ x ∈ (extractSizesAux elems d t).1,
        x ∈ (extractSizesAux elems d t).2 := by
  intro elems
  induction elems with
  | nil => intro d t h x hx; exact h x hx
  | cons e rest ih =>
      intro d t h
      simp only [extractSizesAux]
      by_cases h1 : (talleLabel e == "") = true
      · rw [if_pos h1]; exact ih d t h
      · rw [if_neg h1]
        by_cases h2 : (clean_size_text (talleLabel e) == "") = true
        · rw [if_pos h2]; exact ih d t h
        · rw [if_neg h2]
          have hsub : ∀ y ∈ t,
              y ∈ (if clean_size_text (talleLabel e) ∈ t then t
                   else t ++ [clean_size_text (talleLabel e)]) := by
            intro y hy
            split
            · exact hy
            · exact List.mem_append_left _ hy
          have hcmem : clean_size_text (talleLabel e) ∈
              (if clean_size_text (talleLabel e) ∈ t then t
               else t ++ [clean_size_text (talleLabel e)]) := by
            split
            · assumption
            · exact List.mem_append_right _ (by simp)
          by_cases h3 : is_element_disabled e = true
          · rw [if_pos h3]
            exact ih d _ (fun x hx => hsub x (h x hx))
          · rw [if_neg h3]
            apply ih
            intro x hx
            rcases List.mem_append.mp hx with hx' | hx'
            · exact hsub x (h x hx')
            · have hx'' : x = clean_size_text (talleLabel e) := by
                simpa using hx'
              rw [hx'']
              exact hcmem

/-- Membership after the `normalize_sizes` fold: an element is in the result
iff it was in the accumulator or arises as the stripped-uppercased form of a
truthy entry and is itself non-empty. -/
lemma mem_normalizeFold :
    ∀ (l : List String) (acc : List String) (y : String),
      y ∈ l.foldl (fun normalized size =>
        if size ≠ "" then
          if pyUpper (pyStrip size) ≠ "" ∧ pyUpper (pyStrip size) ∉ normalized then
            normalized ++ [pyUpper (pyStrip size)]
          else normalized
        else normalized) acc ↔
      (y ∈ acc ∨ ∃ x ∈ l, x ≠ "" ∧ pyUpper (pyStrip x) = y ∧ y ≠ "") := by
  intro l
  induction l with
  | nil => intro acc y; simp
  | cons x l ih =>
      intro acc y
      simp only [List.foldl_cons]
      by_cases hx : x ≠ ""
      · rw [if_pos hx]
        by_cases hc : pyUpper (pyStrip x) ≠ "" ∧ pyUpper (pyStrip x) ∉ acc
        · rw [if_pos hc, ih]
          constructor
          · rintro (hy | ⟨z, hz, hprop⟩)
            · rcases List.mem_append.mp hy with h' | h'
              · exact Or.inl h'
              · have h'' : y = pyUpper (pyStrip x) := by simpa using h'
                refine Or.inr ⟨x, List.mem_cons_self _ _, hx, h''.symm, ?_⟩
                rw [h'']
                exact hc.1
            · exact Or.inr ⟨z, List.mem_cons_of_mem _ hz, hprop⟩
          · rintro (hy | ⟨z, hz, hz1, hz2, hz3⟩)
            · exact Or.inl (List.mem_append_left _ hy)
            · rcases List.mem_cons.mp hz with rfl | hz'
              · exact Or.inl (List.mem_append_right _ (by simp [hz2]))
              · exact Or.inr ⟨z, hz', hz1, hz2, hz3⟩
        · rw [if_neg hc, ih]
          constructor
          · rintro (hy | ⟨z, hz, hprop⟩)
            · exact Or.inl hy
            · exact Or.inr ⟨z, List.mem_cons_of_mem _ hz, hprop⟩
          · rintro (hy | ⟨z, hz, hz1, hz2, hz3⟩)
            · exact Or.inl hy
            · rcases List.mem_cons.mp hz with rfl | hz'
              · rcases not_and_or.mp hc with h' | h'
                · have : y = "" := by
                    rw [← hz2]
                    exact not_ne_iff.mp h'
                  exact absurd this hz3
                · have : pyUpper (pyStrip z) ∈ acc := not_not.mp h'
                  exact Or.inl (hz2 ▸ this)
              · exact Or.inr ⟨z, hz', hz1, hz2, hz3⟩
      · rw [if_neg hx, ih]
        constructor
        · rintro (hy | ⟨z, hz, hprop⟩)
          · exact Or.inl hy
          · exact Or.inr ⟨z, List.mem_cons_of_mem _ hz, hprop⟩
        · rintro (hy | ⟨z, hz, hz1, hz2, hz3⟩)
          · exact Or.inl hy
          · rcases List.mem_cons.mp hz with rfl | hz'
            · exact absurd hz1 hx
            · exact Or.inr ⟨z, hz', hz1, hz2, hz3⟩

/-- Membership characterization of `normalize_sizes`. -/
lemma mem_normalize_sizes (l : List String) (y : String) :
    y ∈ normalize_sizes l ↔
      ∃ x ∈ l, x ≠ "" ∧ pyUpper (pyStrip x) = y ∧ y ≠ "" := by
  unfold normalize_sizes
  split
  · rename_i hemp
    rw [List.isEmpty_iff] at hemp
    subst hemp
    simp
  · rw [mem_normalizeFold]
    simp

/-- C9: for every list of swatch elements, every size the extraction loop
records as available also occurs in the full size list;
`normalize_sizes` preserves list containment; and therefore the containment
still holds after the worker applies `normalize_sizes` to both lists. -/
theorem C9_sizes_subset :
    (∀ (elems : List TalleElement) (x : String),
        x ∈ (extract_sizes elems).1 → x ∈ (extract_sizes elems).2) ∧
    (∀ (l1 l2 : List String), (∀ x ∈ l1, x ∈ l2) →
        ∀ y ∈ normalize_sizes l1, y ∈ normalize_sizes l2) ∧
    (∀ (elems : List TalleElement) (y : String),
        y ∈ normalize_sizes (extract_sizes elems).1 →
        y ∈ normalize_sizes (extract_sizes elems).2) := by
  have hsub : ∀ (l1 l2 : List String), (∀ x ∈ l1, x ∈ l2) →
      ∀ y ∈ normalize_sizes l1, y ∈ normalize_sizes l2 := by
    intro l1 l2 h y hy
    rw [mem_normalize_sizes] at hy ⊢
    obtain ⟨x, hx, h1, h2, h3⟩ := hy
    exact ⟨x, h x hx, h1, h2, h3⟩
  refine ⟨?_, hsub, ?_⟩
  · intro elems x hx
    exact extractSizesAux_subset elems [] [] (by simp) x hx
  · intro elems y hy
    exact hsub _ _
      (fun x hx => extractSizesAux_subset elems [] [] (by simp) x hx) y hy

/-- Witness for C9 at concrete inputs: with one enabled `38/xs` swatch and
one disabled `40/s` swatch, the available size `38/XS` occurs in the full
list; and `normalize_sizes` maps the sublist `["s"]` of `["s","m"]` into the
normalization of the larger list. -/
theorem C9_sizes_subset_witness :
    "38/XS" ∈ (extract_sizes
      [⟨"38/xs", "", "", "", false, [], "", "", ""⟩,
       ⟨"40/s", "", "", "", false, ["disabled"], "", "", ""⟩]).2 ∧
    "S" ∈ normalize_sizes ["s", "m"] :=
  ⟨C9_sizes_subset.1
      [⟨"38/xs", "", "", "", false, [], "", "", ""⟩,
       ⟨"40/s", "", "", "", false, ["disabled"], "", "", ""⟩]
      "38/XS" (by decide),
   C9_sizes_subset.2.1 ["s"] ["s", "m"] (by decide) "S" (by decide)⟩

/-- Witness for C5 at the spec's Scenario A input, read off the theorem
itself: with current page 2 and candidates for pages 1 and 3, the resolver
returns the page-3 candidate (in particular not the current URL). -/
theorem C5_find_next_page_url_witness :
    find_next_page_url
        ["https://www.rapsodia.com.ar/woman/cat?p=1",
         "https://www.rapsodia.com.ar/woman/cat?p=3"]
        "https://www.rapsodia.com.ar/woman/cat?p=2" =
      some "https://www.rapsodia.com.ar/woman/cat?p=3" :=
  C5_find_next_page_url.2.2
